import Mathlib

/-!
# db-structure.js: the schema report

A shallow embedding of `src/db-structure.js`.  The script owns a connection pool,
a helper `query(text, params)` and the report `analyzeDatabase()`.  Everything the
script does to the outside world (pool calls and console calls) is recorded as a
sequence of events; everything the outside world answers (the pool and the
database) is an oracle `Db` that is consulted once per call of `query`.

What is taken for granted about the runtime: the calls of `console`, of
`client.release()` and of `pool.end()` do not throw, `process.exit` ends the
run, and the rows of a statement have the columns of its select list.
-/

namespace DbStructure

/-! ## Data model -/

/-- The value a rejected promise carries (a JavaScript `Error`). -/
structure Err where
  message : String
deriving DecidableEq, Repr

/-- The five statements the script sends, in the order they occur in the source
(lines 27, 43, 58, 72 and 100). -/
inductive Sql
  | tables
  | columns
  | indexes
  | foreignKeys
  | stats
deriving DecidableEq, Repr

/-- A row of `SELECT table_name FROM information_schema.tables ...`. -/
structure TableRow where
  table_name : String
deriving DecidableEq, Repr

/-- A row of the column statement (line 44 to 48). -/
structure ColumnRow where
  column_name : String
  data_type : String
  is_nullable : String
  column_default : Option String
deriving DecidableEq, Repr

/-- A row of the index statement (line 60 and 61). -/
structure IndexRow where
  indexname : String
  indexdef : String
deriving DecidableEq, Repr

/-- A row of the foreign-key statement (line 74 to 77). -/
structure ForeignKeyRow where
  constraint_name : String
  column_name : String
  foreign_table_name : String
  foreign_column_name : String
deriving DecidableEq, Repr

/-- The single row of the statistics statement (line 102 to 104). -/
structure StatsRow where
  total_tables : Nat
  total_views : Nat
  total_functions : Nat
deriving DecidableEq, Repr

/-- The shape of `res.rows` for each statement, fixed by its select list. -/
@[reducible] def Sql.Row : Sql → Type
  | .tables => TableRow
  | .columns => ColumnRow
  | .indexes => IndexRow
  | .foreignKeys => ForeignKeyRow
  | .stats => StatsRow

/-- What the pool and the database answer to the `n`-th call of `query`
(counted from 0): `connect n` is the outcome of `pool.connect()` (`none` when a
client is handed out), `execute n text params` the outcome of
`client.query(text, params)`.  Indexing by `n` lets the answers change during a
run, so every possible run is the run against some `Db`. -/
structure Db where
  connect : Nat → Option Err
  execute : Nat → (text : Sql) → List String → Except Err (List text.Row)

/-- An argument of `console.table`. -/
inductive Rows
  | columns (rows : List ColumnRow)
  | indexes (rows : List IndexRow)
  | foreignKeys (rows : List ForeignKeyRow)
  | stats (rows : List StatsRow)
deriving DecidableEq, Repr

/-- An argument of `console.log`, one constructor per call site. -/
inductive Line
  /-- Line 23. -/
  | analysing
  /-- Line 26. -/
  | tablesTitle
  /-- Line 35: the names, each prefixed by `- `, joined by newlines. -/
  | tableList (tableNames : List String)
  /-- Line 36. -/
  | blank
  /-- Line 40: the title of a table section, carrying `table`. -/
  | sectionTitle (table : String)
  /-- Line 54. -/
  | columnsTitle
  /-- Line 67. -/
  | indexesTitle
  /-- Line 90. -/
  | foreignKeysTitle
  /-- Line 94. -/
  | separator
  /-- Line 98. -/
  | statsTitle
  /-- Line 109. -/
  | success
deriving DecidableEq, Repr

/-- The text of each logged line; `toUpperCase` is JavaScript's
`String.prototype.toUpperCase`. -/
def Line.text (toUpperCase : String → String) : Line → String
  | .analysing => "🔍 Analizando la estructura de la base de datos...\n"
  | .tablesTitle => "📋 TABLAS EN LA BASE DE DATOS:"
  | .tableList tableNames => "\n".intercalate (tableNames.map fun name => "- " ++ name)
  | .blank => ""
  | .sectionTitle table => "📊 ESTRUCTURA DE LA TABLA: " ++ toUpperCase table
  | .columnsTitle => "Columnas:"
  | .indexesTitle => "\nÍndices:"
  | .foreignKeysTitle => "\nClaves foráneas:"
  | .separator => "\n" ++ String.mk (List.replicate 80 '=') ++ "\n"
  | .statsTitle => "📈 ESTADÍSTICAS DE LA BASE DE DATOS:"
  | .success => "\n✅ Análisis completado con éxito!"

/-- One observable action of the script. -/
inductive Event
  /-- The call `pool.connect()` handed out a client. -/
  | connected
  /-- The call `pool.connect()` was rejected with `e`. -/
  | connectFailed (e : Err)
  /-- The call `client.query(text, params)` returned rows. -/
  | executed (text : Sql) (params : List String)
  /-- The call `client.query(text, params)` was rejected with `e`. -/
  | executeFailed (text : Sql) (params : List String) (e : Err)
  /-- The call `client.release()`. -/
  | released
  /-- A call of `console.log`. -/
  | log (line : Line)
  /-- A call of `console.table`. -/
  | table (rows : Rows)
  /-- The call of `console.error` on line 112, with the caught error. -/
  | error (e : Err)
  /-- The call `pool.end()`. -/
  | poolEnd
  /-- The call `process.exit(code)`. -/
  | exit (code : Nat)
deriving DecidableEq, Repr

/-! ## Execution -/

/-- A computation of the script: started when `n` calls of `query` have been made,
it either returns a value or throws, has emitted some events, and leaves the
number of calls of `query` made so far. -/
def Run (α : Type) : Type := Nat → Except Err α × List Event × Nat

/-- Return without any effect. -/
def Run.pure {α : Type} (a : α) : Run α := fun n => (.ok a, [], n)

/-- Sequencing: a throw of the first computation skips the second. -/
def Run.bind {α β : Type} (x : Run α) (f : α → Run β) : Run β := fun n =>
  match x n with
  | (.error e, ev, n1) => (.error e, ev, n1)
  | (.ok a, ev, n1) =>
    match f a n1 with
    | (r, ev2, n2) => (r, ev ++ ev2, n2)

instance : Monad Run where
  pure := Run.pure
  bind := Run.bind

/-- Emit one event. -/
def emit (e : Event) : Run Unit := fun n => (.ok (), [e], n)

/-- The statement `throw e` (a rejected promise). -/
def raise {α : Type} (e : Err) : Run α := fun n => (.error e, [], n)

/-- The statement `try { body } finally { fin }`: `fin` runs on both exits; the
outcome is that of `body` unless `fin` throws. -/
def tryFinally {α : Type} (body : Run α) (fin : Run Unit) : Run α := fun n =>
  match body n with
  | (r, ev, n1) =>
    match fin n1 with
    | (.ok (), ev2, n2) => (r, ev ++ ev2, n2)
    | (.error e, ev2, n2) => (.error e, ev ++ ev2, n2)

/-- The statement `try { body } catch (error) { handler(error) }`. -/
def tryCatch {α : Type} (body : Run α) (handler : Err → Run α) : Run α := fun n =>
  match body n with
  | (.ok a, ev, n1) => (.ok a, ev, n1)
  | (.error e, ev, n1) =>
    match handler e n1 with
    | (r, ev2, n2) => (r, ev ++ ev2, n2)

/-- The call `pool.connect()` inside the current call of `query`. -/
def poolConnect (db : Db) (call : Nat) : Run Unit :=
  match db.connect call with
  | some e => do emit (.connectFailed e); raise e
  | none => emit .connected

/-- The call `client.query(text, params)` followed by `.rows`. -/
def clientQuery (db : Db) (call : Nat) (text : Sql) (params : List String) :
    Run (List text.Row) :=
  match db.execute call text params with
  | .error e => do emit (.executeFailed text params e); raise e
  | .ok rows => do emit (.executed text params); pure rows

/-- The function `query` (line 10 to 18).  The call is number `n`, the calls made
before it being `0` to `n - 1`; it asks the oracle for the answers to call `n` and
leaves the counter at `n + 1`.  The client is released in the `finally` block,
on both exits of `client.query`; when `pool.connect()` throws, the `try` block is
not entered. -/
def query (db : Db) (text : Sql) (params : List String) : Run (List text.Row) := fun n =>
  (do
    poolConnect db n
    tryFinally
      (clientQuery db n text params)
      (emit .released)) (n + 1)

/-- The body of the `for` loop (line 40 to 94). -/
def tableSection (db : Db) (table : String) : Run Unit := do
  emit (.log (.sectionTitle table))
  let columns ← query db .columns [table]
  emit (.log .columnsTitle)
  emit (.table (.columns columns))
  let indexes ← query db .indexes [table]
  if indexes.length > 0 then
    emit (.log .indexesTitle)
    emit (.table (.indexes indexes))
  let foreignKeys ← query db .foreignKeys [table]
  if foreignKeys.length > 0 then
    emit (.log .foreignKeysTitle)
    emit (.table (.foreignKeys foreignKeys))
  emit (.log .separator)

/-- The loop `for (const table of tableNames)` (line 39). -/
def forEachTable (db : Db) : List String → Run Unit
  | [] => pure ()
  | table :: rest => do
    tableSection db table
    forEachTable db rest

/-- The `try` block of `analyzeDatabase` (line 23 to 109). -/
def analyzeBody (db : Db) : Run Unit := do
  emit (.log .analysing)
  emit (.log .tablesTitle)
  let tables ← query db .tables []
  let tableNames := tables.map fun t => t.table_name
  emit (.log (.tableList tableNames))
  emit (.log .blank)
  forEachTable db tableNames
  emit (.log .statsTitle)
  let dbStats ← query db .stats []
  emit (.table (.stats dbStats))
  emit (.log .success)

/-- The function `analyzeDatabase` (line 21 to 117). -/
def analyzeDatabase (db : Db) : Run Unit :=
  tryFinally
    (tryCatch (analyzeBody db) fun error => emit (.error error))
    (do
      emit .poolEnd
      emit (.exit 0))

/-- The events of the script run against `db` (line 120). -/
def run (db : Db) : List Event := (analyzeDatabase db 0).2.1

/-- The code the process exits with: the argument of the first `process.exit`. -/
def exitCode : List Event → Option Nat
  | [] => none
  | .exit code :: _ => some code
  | _ :: rest => exitCode rest

/-! ## The catalog behind the statements

The statements read catalog views.  A `Catalog` holds the content of those views
as the database shows them to the connected role, restricted to the columns the
statements mention (and the schema of a constraint's table); each statement is
evaluated on it by the usual relational reading of its text.  The order of the
rows of a statement without `ORDER BY` is not fixed by the database: what is
proved of such rows does not depend on the order the functions below give. -/

/-- A row of `information_schema.tables`. -/
structure TablesViewRow where
  table_schema : String
  table_name : String
deriving DecidableEq, Repr

/-- A row of `information_schema.columns`. -/
structure ColumnsViewRow where
  table_name : String
  ordinal_position : Nat
  column_name : String
  data_type : String
  is_nullable : String
  column_default : Option String
deriving DecidableEq, Repr

/-- A row of `pg_indexes`. -/
structure PgIndexesRow where
  tablename : String
  indexname : String
  indexdef : String
deriving DecidableEq, Repr

/-- A row of `information_schema.table_constraints`.  The statements do not read
`table_schema`; it is kept to tell tables of the same name apart. -/
structure TableConstraintsRow where
  constraint_name : String
  table_schema : String
  table_name : String
  constraint_type : String
deriving DecidableEq, Repr

/-- A row of `information_schema.key_column_usage`. -/
structure KeyColumnUsageRow where
  constraint_name : String
  table_name : String
  column_name : String
deriving DecidableEq, Repr

/-- A row of `information_schema.constraint_column_usage`. -/
structure ConstraintColumnUsageRow where
  constraint_name : String
  table_name : String
  column_name : String
deriving DecidableEq, Repr

/-- The catalog views the five statements read.  For `information_schema.views`
and `information_schema.routines` only the schema of each row is kept. -/
structure Catalog where
  tables : List TablesViewRow
  views : List String
  routines : List String
  columns : List ColumnsViewRow
  pg_indexes : List PgIndexesRow
  table_constraints : List TableConstraintsRow
  key_column_usage : List KeyColumnUsageRow
  constraint_column_usage : List ConstraintColumnUsageRow

/-- The clause `l JOIN r ON cond`. -/
def innerJoin {α β : Type} (l : List α) (r : List β) (cond : α → β → Bool) : List (α × β) :=
  l.flatMap fun a => (r.filter (cond a)).map fun b => (a, b)

/-- The order `ORDER BY table_name` sorts by: names are compared character by
character on their code points (the collation of catalog identifiers). -/
def nameLe (a b : String) : Prop := a.data ≤ b.data

instance : DecidableRel nameLe := fun a b => inferInstanceAs (Decidable (a.data ≤ b.data))

/-- The statement of line 27 to 32. -/
def Catalog.selectTables (cat : Catalog) : List TableRow :=
  let names := (cat.tables.filter fun t => t.table_schema = "public").map fun t => t.table_name
  (names.insertionSort nameLe).map TableRow.mk

/-- The statement of line 43 to 52, with `table` for `$1`. -/
def Catalog.selectColumns (cat : Catalog) (table : String) : List ColumnRow :=
  let rows := cat.columns.filter fun c => c.table_name = table
  let sorted := rows.insertionSort fun a b => a.ordinal_position ≤ b.ordinal_position
  sorted.map fun c => ⟨c.column_name, c.data_type, c.is_nullable, c.column_default⟩

/-- The statement of line 58 to 64, with `table` for `$1`. -/
def Catalog.selectIndexes (cat : Catalog) (table : String) : List IndexRow :=
  (cat.pg_indexes.filter fun i => i.tablename = table).map fun i => ⟨i.indexname, i.indexdef⟩

/-- The statement of line 72 to 87, with `table` for `$1`. -/
def Catalog.selectForeignKeys (cat : Catalog) (table : String) : List ForeignKeyRow :=
  let tc_kcu := innerJoin cat.table_constraints cat.key_column_usage
    fun tc kcu => tc.constraint_name = kcu.constraint_name
  let joined := innerJoin tc_kcu cat.constraint_column_usage
    fun (tc, _) ccu => ccu.constraint_name = tc.constraint_name
  let selected := joined.filter
    fun ((tc, _), _) => tc.table_name = table ∧ tc.constraint_type = "FOREIGN KEY"
  selected.map fun ((tc, kcu), ccu) =>
    ⟨tc.constraint_name, kcu.column_name, ccu.table_name, ccu.column_name⟩

/-- The statement of line 100 to 105. -/
def Catalog.selectStats (cat : Catalog) : List StatsRow :=
  [⟨(cat.tables.filter fun t => t.table_schema = "public").length,
    (cat.views.filter fun s => s = "public").length,
    (cat.routines.filter fun s => s = "public").length⟩]

/-- The database's complaint when the parameters do not fit the statement. -/
def bindError : Err := ⟨"bind message supplies the wrong number of parameters"⟩

/-- A statement evaluated on a catalog. -/
def Catalog.execute (cat : Catalog) : (text : Sql) → List String → Except Err (List text.Row)
  | .tables, [] => .ok cat.selectTables
  | .columns, [table] => .ok (cat.selectColumns table)
  | .indexes, [table] => .ok (cat.selectIndexes table)
  | .foreignKeys, [table] => .ok (cat.selectForeignKeys table)
  | .stats, [] => .ok cat.selectStats
  | _, _ => .error bindError

/-- A reachable database whose catalog is `cat` and stays unchanged. -/
def catalogDb (cat : Catalog) : Db where
  connect := fun _ => none
  execute := fun _ => cat.execute

/-! ## Vocabulary of the statements proved below -/

/-- The events of a call of `query` that went well and of the report itself,
the success message excepted. -/
def Event.isRoutine : Event → Bool
  | .connected => true
  | .executed _ _ => true
  | .released => true
  | .log line => line != .success
  | .table _ => true
  | _ => false

/-- The events that record a failed call. -/
def Event.isFailure : Event → Bool
  | .connectFailed _ => true
  | .executeFailed _ _ _ => true
  | _ => false

/-- The events on the pool and its clients inside `query`. -/
def Event.isPool : Event → Bool
  | .connected => true
  | .connectFailed _ => true
  | .executed _ _ => true
  | .executeFailed _ _ _ => true
  | .released => true
  | _ => false

/-- The calls of `console.log` and `console.table`. -/
def Event.isConsole : Event → Bool
  | .log _ => true
  | .table _ => true
  | _ => false

/-- The console calls of the two optional parts of a table section. -/
def Event.isOptional : Event → Bool
  | .log .indexesTitle => true
  | .log .foreignKeysTitle => true
  | .table (.indexes _) => true
  | .table (.foreignKeys _) => true
  | _ => false

/-- The table a section title announces. -/
def Event.sectionTable : Event → Option String
  | .log (.sectionTitle name) => some name
  | _ => none

/-- A stretch of a run in which nothing failed: only routine events, and every
client handed out has been released. -/
def Calm (ev : List Event) : Prop :=
  (∀ x ∈ ev, x.isRoutine = true) ∧ ev.count .released = ev.count .connected

/-- The events of a failing call of `query` that threw `e`. -/
def FailTail (e : Err) (tail : List Event) : Prop :=
  tail = [.connectFailed e] ∨
    ∃ text params, tail = [.connected, .executeFailed text params e, .released]

/-- A stretch of a run that ends in the call of `query` that threw `e`. -/
def Aborted (e : Err) (ev : List Event) : Prop :=
  ∃ pre tail, Calm pre ∧ FailTail e tail ∧ ev = pre ++ tail

/-- The parameters fit the statement. -/
def wellFormed : Sql → List String → Bool
  | .tables, [] => true
  | .columns, [_] => true
  | .indexes, [_] => true
  | .foreignKeys, [_] => true
  | .stats, [] => true
  | _, _ => false

/-- Some answer of `db` is the error `e`. -/
def Db.Rejects (db : Db) (e : Err) : Prop :=
  ∃ k, db.connect k = some e ∨
    ∃ text params, wellFormed text params = true ∧ db.execute k text params = .error e

/-- The rows call `n` of `query` returns when it is made with `text` and `params`
(none when the call fails). -/
def rowsAt (db : Db) (n : Nat) (text : Sql) (params : List String) : List text.Row :=
  match db.connect n, db.execute n text params with
  | none, .ok rows => rows
  | _, _ => []

/-- A statement about `x` started at call `n`: when it returns, `Qok` holds of the
value, the events and the call counter; when it throws `e`, the events end in the
failing call and `e` is an answer of `db`. -/
def Steps {α : Type} (db : Db) (x : Run α) (n : Nat) (Qok : α → List Event → Nat → Prop) :
    Prop :=
  match x n with
  | (.ok a, ev, m) => Qok a ev m
  | (.error e, ev, _) => Aborted e ev ∧ db.Rejects e

/-- The events of a call of `query` that went well. -/
def queryEvents (text : Sql) (params : List String) : List Event :=
  [.connected, .executed text params, .released]

/-- The part of a table section for the indexes. -/
def indexPart (indexes : List IndexRow) : List Event :=
  if indexes.length > 0 then [.log .indexesTitle, .table (.indexes indexes)] else []

/-- The part of a table section for the foreign keys. -/
def foreignKeyPart (foreignKeys : List ForeignKeyRow) : List Event :=
  if foreignKeys.length > 0 then
    [.log .foreignKeysTitle, .table (.foreignKeys foreignKeys)]
  else []

/-- The events of the section of `table` when its three statements, the calls
`n`, `n + 1` and `n + 2`, go well. -/
def expectedSection (db : Db) (n : Nat) (table : String) : List Event :=
  [.log (.sectionTitle table)] ++ queryEvents .columns [table]
    ++ [.log .columnsTitle, .table (.columns (rowsAt db n .columns [table]))]
    ++ queryEvents .indexes [table] ++ indexPart (rowsAt db (n + 1) .indexes [table])
    ++ queryEvents .foreignKeys [table]
    ++ foreignKeyPart (rowsAt db (n + 2) .foreignKeys [table])
    ++ [.log .separator]

/-- The events of the sections of `tableNames`, the first statement being call `n`. -/
def expectedSections (db : Db) : Nat → List String → List Event
  | _, [] => []
  | n, table :: rest => expectedSection db n table ++ expectedSections db (n + 3) rest

/-- The names the table list, call 0, answers. -/
def tableNamesOf (db : Db) : List String :=
  (rowsAt db 0 .tables []).map fun t => t.table_name

/-- The events of `analyzeBody` up to the success message when every call goes
well. -/
def expectedBody (db : Db) : List Event :=
  [.log .analysing, .log .tablesTitle] ++ queryEvents .tables []
    ++ [.log (.tableList (tableNamesOf db)), .log .blank]
    ++ expectedSections db 1 (tableNamesOf db)
    ++ [.log .statsTitle] ++ queryEvents .stats []
    ++ [.table (.stats (rowsAt db (3 * (tableNamesOf db).length + 1) .stats []))]

/-- The console calls of a table section, from the rows of its three statements. -/
def sectionConsole (table : String) (columns : List ColumnRow) (indexes : List IndexRow)
    (foreignKeys : List ForeignKeyRow) : List Event :=
  [.log (.sectionTitle table), .log .columnsTitle, .table (.columns columns)]
    ++ indexPart indexes ++ foreignKeyPart foreignKeys ++ [.log .separator]

/-- The console calls of the sections of `tableNames`, the first statement being
call `n`. -/
def sectionsConsole (db : Db) : Nat → List String → List Event
  | _, [] => []
  | n, table :: rest =>
    sectionConsole table (rowsAt db n .columns [table]) (rowsAt db (n + 1) .indexes [table])
        (rowsAt db (n + 2) .foreignKeys [table])
      ++ sectionsConsole db (n + 3) rest

/-- The statements of a run over `tableNames`, each with its parameters. -/
def expectedQueries (tableNames : List String) : List (Sql × List String) :=
  [(.tables, [])]
    ++ (tableNames.flatMap fun table =>
      [(.columns, [table]), (.indexes, [table]), (.foreignKeys, [table])])
    ++ [(.stats, [])]

/-! ## Foreign keys in the constraint views -/

/-- The foreign-key constraints `table_constraints` shows. -/
def Catalog.foreignKeys (cat : Catalog) : List TableConstraintsRow :=
  cat.table_constraints.filter fun tc => tc.constraint_type = "FOREIGN KEY"

/-- The foreign-key constraints `table_constraints` shows for the table `table` of
the schema `public`, the schema of the tables of the report. -/
def Catalog.foreignKeysOf (cat : Catalog) (table : String) : List TableConstraintsRow :=
  cat.foreignKeys.filter fun tc => tc.table_schema = "public" ∧ tc.table_name = table

/-- The rows of `key_column_usage` that carry the constraint name `name`. -/
def Catalog.keyColumnsNamed (cat : Catalog) (name : String) : List KeyColumnUsageRow :=
  cat.key_column_usage.filter fun kcu => kcu.constraint_name = name

/-- The rows of `constraint_column_usage` that carry the constraint name `name`. -/
def Catalog.usedColumnsNamed (cat : Catalog) (name : String) :
    List ConstraintColumnUsageRow :=
  cat.constraint_column_usage.filter fun ccu => ccu.constraint_name = name

/-- The columns of its own table that a constraint covers: the rows of
`key_column_usage` with its name and its table. -/
def Catalog.ownKeyColumns (cat : Catalog) (tc : TableConstraintsRow) :
    List KeyColumnUsageRow :=
  cat.key_column_usage.filter fun kcu =>
    kcu.constraint_name = tc.constraint_name ∧ kcu.table_name = tc.table_name

/-- The report rows of one constraint: its name with a column `key_column_usage`
lists under that name and a table and column `constraint_column_usage` lists
under that name. -/
def Catalog.foreignKeyRows (cat : Catalog) (tc : TableConstraintsRow) : List ForeignKeyRow :=
  (cat.keyColumnsNamed tc.constraint_name).flatMap fun kcu =>
    (cat.usedColumnsNamed tc.constraint_name).map fun ccu =>
      ⟨tc.constraint_name, kcu.column_name, ccu.table_name, ccu.column_name⟩

/-! ## Sample databases -/

/-- A catalog with no content at all. -/
def emptyCatalog : Catalog := ⟨[], [], [], [], [], [], [], []⟩

/-- The catalog of the example: `users (id, email)` with its primary key
`users_pkey`, and `orders (user_id)` with a foreign key to `users.id`. -/
def sampleCatalog : Catalog where
  tables := [⟨"public", "users"⟩, ⟨"public", "orders"⟩, ⟨"pg_catalog", "pg_class"⟩]
  views := []
  routines := ["public"]
  columns := [⟨"users", 2, "email", "text", "YES", none⟩,
    ⟨"users", 1, "id", "integer", "NO", none⟩, ⟨"orders", 1, "user_id", "integer", "YES", none⟩]
  pg_indexes :=
    [⟨"users", "users_pkey", "CREATE UNIQUE INDEX users_pkey ON public.users USING btree (id)"⟩]
  table_constraints :=
    [⟨"users_pkey", "public", "users", "PRIMARY KEY"⟩,
      ⟨"orders_user_id_fkey", "public", "orders", "FOREIGN KEY"⟩]
  key_column_usage :=
    [⟨"users_pkey", "users", "id"⟩, ⟨"orders_user_id_fkey", "orders", "user_id"⟩]
  constraint_column_usage :=
    [⟨"users_pkey", "users", "id"⟩, ⟨"orders_user_id_fkey", "users", "id"⟩]

/-- A database that cannot be reached: every `pool.connect()` is rejected. -/
def unreachableDb : Db where
  connect := fun _ => some ⟨"connect ECONNREFUSED"⟩
  execute := fun _ _ _ => .error ⟨"not connected"⟩

/-- The sample catalog, except that the third call, the index statement of the
first table, is denied. -/
def deniedDb : Db where
  connect := fun _ => none
  execute := fun n text params =>
    if n = 2 then .error ⟨"permission denied for view pg_indexes"⟩
    else sampleCatalog.execute text params

/-- The sample catalog with both constraints named `c`: the primary key of `users`
and the foreign key of `orders`.  Both views of constraint columns show a row for
each: `key_column_usage` the key column `users.id` and the column
`orders.user_id`, `constraint_column_usage` the key column `users.id` and the
referenced column `users.id`. -/
def clashingCatalog : Catalog :=
  { sampleCatalog with
    table_constraints :=
      [⟨"c", "public", "users", "PRIMARY KEY"⟩, ⟨"c", "public", "orders", "FOREIGN KEY"⟩]
    key_column_usage := [⟨"c", "users", "id"⟩, ⟨"c", "orders", "user_id"⟩]
    constraint_column_usage := [⟨"c", "users", "id"⟩, ⟨"c", "users", "id"⟩] }

/-! ## The calculus of `Steps` -/

theorem calm_nil : Calm [] := by simp [Calm]

theorem calm_append {a b : List Event} (ha : Calm a) (hb : Calm b) : Calm (a ++ b) := by
  obtain ⟨ha1, ha2⟩ := ha
  obtain ⟨hb1, hb2⟩ := hb
  refine ⟨?_, ?_⟩
  · intro x hx
    rcases List.mem_append.mp hx with h | h
    · exact ha1 x h
    · exact hb1 x h
  · simp [List.count_append, ha2, hb2]

theorem calm_single {e : Event} (h1 : e.isRoutine = true) (h2 : e ≠ .released)
    (h3 : e ≠ .connected) : Calm [e] := by
  refine ⟨by simpa using h1, ?_⟩
  rw [List.count_singleton, List.count_singleton]
  simp [h2, h3]

theorem calm_log {line : Line} (h : line ≠ .success) : Calm [.log line] :=
  calm_single (by simpa [Event.isRoutine] using h) (by simp) (by simp)

theorem calm_table (rows : Rows) : Calm [.table rows] :=
  calm_single rfl (by simp) (by simp)

theorem calm_queryEvents (text : Sql) (params : List String) :
    Calm (queryEvents text params) := by
  refine ⟨?_, ?_⟩
  · intro x hx
    simp only [queryEvents, List.mem_cons, List.mem_singleton, List.not_mem_nil, or_false] at hx
    rcases hx with rfl | rfl | rfl <;> rfl
  · simp [queryEvents, List.count_cons]

theorem aborted_append {e : Err} {pre ev : List Event} (hpre : Calm pre)
    (h : Aborted e ev) : Aborted e (pre ++ ev) := by
  obtain ⟨p, tail, hp, ht, rfl⟩ := h
  exact ⟨pre ++ p, tail, calm_append hpre hp, ht, by simp⟩

theorem Steps.pure {α : Type} {db : Db} {a : α} {n : Nat}
    {Qok : α → List Event → Nat → Prop} (h : Qok a [] n) :
    Steps db (Pure.pure a) n Qok := h

theorem Steps.emit {db : Db} {e : Event} {n : Nat} {Qok : Unit → List Event → Nat → Prop}
    (h : Qok () [e] n) : Steps db (emit e) n Qok := h

theorem Steps.bind {α β : Type} {db : Db} {x : Run α} {f : α → Run β} {n : Nat}
    {P : α → List Event → Nat → Prop} {Qok : β → List Event → Nat → Prop}
    (hx : Steps db x n P)
    (hf : ∀ a ev1 n1, P a ev1 n1 →
      Calm ev1 ∧ Steps db (f a) n1 (fun b ev2 m => Qok b (ev1 ++ ev2) m)) :
    Steps db (x >>= f) n Qok := by
  show Steps db (Run.bind x f) n Qok
  unfold Steps Run.bind at *
  rcases h : x n with ⟨_ | a, ev1, n1⟩
  · simpa [h] using hx
  · rw [h] at hx
    obtain ⟨hc, this⟩ := hf a ev1 n1 hx
    simp only
    rcases h2 : f a n1 with ⟨_ | b, ev2, m⟩
    · rw [h2] at this
      exact ⟨aborted_append hc this.1, this.2⟩
    · simpa [h2] using this

theorem Steps.emit_bind {β : Type} {db : Db} {e : Event} {f : Unit → Run β} {n : Nat}
    {Qok : β → List Event → Nat → Prop} (he : Calm [e])
    (hf : Steps db (f ()) n (fun b ev m => Qok b (e :: ev) m)) :
    Steps db (DbStructure.emit e >>= f) n Qok :=
  Steps.bind (P := fun _ ev1 n1 => ev1 = [e] ∧ n1 = n) (Steps.emit ⟨rfl, rfl⟩)
    (by rintro _ _ _ ⟨rfl, rfl⟩; exact ⟨he, hf⟩)

theorem query_eq (db : Db) (text : Sql) (params : List String) (n : Nat) :
    query db text params n =
      match db.connect n with
      | some e => (.error e, [.connectFailed e], n + 1)
      | none =>
        match db.execute n text params with
        | .error e => (.error e, [.connected, .executeFailed text params e, .released], n + 1)
        | .ok rows => (.ok rows, queryEvents text params, n + 1) := by
  unfold query poolConnect clientQuery queryEvents
  cases h1 : db.connect n with
  | some e => simp [bind, Run.bind, emit, raise]
  | none =>
    cases h2 : db.execute n text params with
    | error e => simp [bind, Run.bind, emit, raise, tryFinally]
    | ok rows => simp [bind, Run.bind, emit, raise, tryFinally, pure, Run.pure]

theorem Steps.query {db : Db} {text : Sql} {params : List String} {n : Nat}
    {Qok : List text.Row → List Event → Nat → Prop} (hw : wellFormed text params = true)
    (h : ∀ rows, db.connect n = none → db.execute n text params = .ok rows →
      Qok rows (queryEvents text params) (n + 1)) :
    Steps db (DbStructure.query db text params) n Qok := by
  unfold Steps
  rw [query_eq]
  cases h1 : db.connect n with
  | some e =>
    exact ⟨⟨[], _, calm_nil, Or.inl rfl, rfl⟩, n, Or.inl h1⟩
  | none =>
    cases h2 : db.execute n text params with
    | error e =>
      exact ⟨⟨[], _, calm_nil, Or.inr ⟨text, params, rfl⟩, rfl⟩, n, Or.inr ⟨text, params, hw, h2⟩⟩
    | ok rows => exact h rows h1 h2

theorem Steps.query_bind {β : Type} {db : Db} {text : Sql} {params : List String}
    {f : List text.Row → Run β} {n : Nat} {Qok : β → List Event → Nat → Prop}
    (hw : wellFormed text params = true)
    (hf : db.connect n = none → ∀ rows, db.execute n text params = .ok rows →
      Steps db (f rows) (n + 1) (fun b ev m => Qok b (queryEvents text params ++ ev) m)) :
    Steps db (DbStructure.query db text params >>= f) n Qok :=
  Steps.bind
    (P := fun rows ev1 n1 => ev1 = queryEvents text params ∧ n1 = n + 1 ∧
      db.connect n = none ∧ db.execute n text params = .ok rows)
    (Steps.query hw fun rows h1 h2 => ⟨rfl, rfl, h1, h2⟩)
    (by rintro rows _ _ ⟨rfl, rfl, h1, h2⟩; exact ⟨calm_queryEvents _ _, hf h1 rows h2⟩)

theorem Steps.ite {α : Type} {db : Db} {c : Prop} [Decidable c] {x y : Run α} {n : Nat}
    {Qok : α → List Event → Nat → Prop}
    (hx : c → Steps db x n Qok) (hy : ¬ c → Steps db y n Qok) :
    Steps db (if c then x else y) n Qok := by
  split
  · exact hx ‹_›
  · exact hy ‹_›

theorem rowsAt_eq {db : Db} {n : Nat} {text : Sql} {params : List String}
    {rows : List text.Row} (hc : db.connect n = none) (h : db.execute n text params = .ok rows) :
    rowsAt db n text params = rows := by
  simp [rowsAt, hc, h]

theorem tableSection_steps (db : Db) (table : String) (n : Nat) :
    Steps db (tableSection db table) n
      (fun _ ev m => ev = expectedSection db n table ∧ m = n + 3) := by
  unfold tableSection
  refine Steps.emit_bind (calm_log (by simp)) ?_
  refine Steps.query_bind rfl fun c1 columns hcol => ?_
  refine Steps.emit_bind (calm_log (by simp)) ?_
  refine Steps.emit_bind (calm_table _) ?_
  refine Steps.query_bind rfl fun c2 indexes hidx => ?_
  refine Steps.ite (fun hi => ?_) (fun hi => ?_)
  · refine Steps.emit_bind (calm_log (by simp)) ?_
    refine Steps.emit_bind (calm_table _) ?_
    refine Steps.query_bind rfl fun c3 fks hfk => ?_
    refine Steps.ite (fun hf => ?_) (fun hf => ?_)
    · refine Steps.emit_bind (calm_log (by simp)) ?_
      refine Steps.emit_bind (calm_table _) ?_
      refine Steps.emit ?_
      simp [expectedSection, rowsAt_eq c1 hcol, rowsAt_eq c2 hidx, rowsAt_eq c3 hfk, indexPart,
        foreignKeyPart, hi, hf]
    · refine Steps.bind (P := fun _ ev1 n1 => ev1 = [] ∧ n1 = n + 1 + 1 + 1)
        (Steps.pure ⟨rfl, rfl⟩) ?_
      rintro _ _ _ ⟨rfl, rfl⟩
      refine ⟨calm_nil, Steps.emit ?_⟩
      simp [expectedSection, rowsAt_eq c1 hcol, rowsAt_eq c2 hidx, rowsAt_eq c3 hfk, indexPart,
        foreignKeyPart, hi, hf]
  · refine Steps.bind (P := fun _ ev1 n1 => ev1 = [] ∧ n1 = n + 1 + 1)
      (Steps.pure ⟨rfl, rfl⟩) ?_
    rintro _ _ _ ⟨rfl, rfl⟩
    refine ⟨calm_nil, ?_⟩
    refine Steps.query_bind rfl fun c3 fks hfk => ?_
    refine Steps.ite (fun hf => ?_) (fun hf => ?_)
    · refine Steps.emit_bind (calm_log (by simp)) ?_
      refine Steps.emit_bind (calm_table _) ?_
      refine Steps.emit ?_
      simp [expectedSection, rowsAt_eq c1 hcol, rowsAt_eq c2 hidx, rowsAt_eq c3 hfk, indexPart,
        foreignKeyPart, hi, hf]
    · refine Steps.bind (P := fun _ ev1 n1 => ev1 = [] ∧ n1 = n + 1 + 1 + 1)
        (Steps.pure ⟨rfl, rfl⟩) ?_
      rintro _ _ _ ⟨rfl, rfl⟩
      refine ⟨calm_nil, Steps.emit ?_⟩
      simp [expectedSection, rowsAt_eq c1 hcol, rowsAt_eq c2 hidx, rowsAt_eq c3 hfk, indexPart,
        foreignKeyPart, hi, hf]

theorem calm_indexPart (indexes : List IndexRow) : Calm (indexPart indexes) := by
  unfold indexPart
  split
  · exact calm_append (a := [_]) (calm_log (by simp)) (calm_table _)
  · exact calm_nil

theorem calm_foreignKeyPart (foreignKeys : List ForeignKeyRow) :
    Calm (foreignKeyPart foreignKeys) := by
  unfold foreignKeyPart
  split
  · exact calm_append (a := [_]) (calm_log (by simp)) (calm_table _)
  · exact calm_nil

theorem calm_expectedSection (db : Db) (n : Nat) (table : String) :
    Calm (expectedSection db n table) := by
  unfold expectedSection
  refine calm_append (calm_append (calm_append (calm_append (calm_append (calm_append
    (calm_append (calm_log (by simp)) (calm_queryEvents _ _)) ?_) (calm_queryEvents _ _))
    (calm_indexPart _)) (calm_queryEvents _ _)) (calm_foreignKeyPart _)) (calm_log (by simp))
  exact calm_append (a := [_]) (calm_log (by simp)) (calm_table _)

theorem calm_expectedSections (db : Db) (tableNames : List String) :
    ∀ n, Calm (expectedSections db n tableNames) := by
  induction tableNames with
  | nil => intro n; exact calm_nil
  | cons table rest ih =>
    intro n
    exact calm_append (calm_expectedSection db n table) (ih (n + 3))

theorem forEachTable_steps (db : Db) (tableNames : List String) :
    ∀ n, Steps db (forEachTable db tableNames) n
      (fun _ ev m => ev = expectedSections db n tableNames ∧ m = n + 3 * tableNames.length) := by
  induction tableNames with
  | nil => intro n; exact Steps.pure ⟨rfl, rfl⟩
  | cons table rest ih =>
    intro n
    unfold forEachTable
    refine Steps.bind (tableSection_steps db table n) ?_
    rintro _ _ _ ⟨rfl, rfl⟩
    refine ⟨calm_expectedSection db n table, ?_⟩
    have h := ih (n + 3)
    unfold Steps at h ⊢
    rcases hx : forEachTable db rest (n + 3) with ⟨_ | u, ev, m⟩
    · rw [hx] at h; exact h
    · rw [hx] at h
      obtain ⟨rfl, rfl⟩ := h
      refine ⟨rfl, ?_⟩
      simp only [List.length_cons]
      omega

theorem calm_expectedBody (db : Db) : Calm (expectedBody db) := by
  unfold expectedBody
  refine calm_append (calm_append (calm_append (calm_append (calm_append (calm_append ?_
    (calm_queryEvents _ _)) ?_) (calm_expectedSections db _ 1)) (calm_log (by simp)))
    (calm_queryEvents _ _)) (calm_table _)
  · exact calm_append (a := [_]) (calm_log (by simp)) (calm_log (by simp))
  · exact calm_append (a := [_]) (calm_log (by simp)) (calm_log (by simp))

theorem analyzeBody_steps (db : Db) :
    Steps db (analyzeBody db) 0 (fun _ ev _ => ev = expectedBody db ++ [.log .success]) := by
  unfold analyzeBody
  refine Steps.emit_bind (calm_log (by simp)) ?_
  refine Steps.emit_bind (calm_log (by simp)) ?_
  refine Steps.query_bind rfl fun c0 tables htab => ?_
  have hnames : tableNamesOf db = tables.map fun t => t.table_name := by
    simp [tableNamesOf, rowsAt_eq c0 htab]
  refine Steps.emit_bind (calm_log (by simp)) ?_
  refine Steps.emit_bind (calm_log (by simp)) ?_
  refine Steps.bind (forEachTable_steps db _ 1) ?_
  rintro _ _ _ ⟨rfl, rfl⟩
  refine ⟨calm_expectedSections db _ 1, ?_⟩
  refine Steps.emit_bind (calm_log (by simp)) ?_
  refine Steps.query_bind rfl fun cs stats hstats => ?_
  refine Steps.emit_bind (calm_table _) ?_
  refine Steps.emit ?_
  rw [← hnames] at hstats cs ⊢
  have h2 : 3 * (tableNamesOf db).length + 1 = 0 + 1 + 3 * (tableNamesOf db).length := by omega
  simp [expectedBody, h2, rowsAt_eq cs hstats]

/-- The two shapes of a run: the report in full, or a report cut short by the
call that failed, followed by the diagnostic. -/
theorem run_cases (db : Db) :
    run db = expectedBody db ++ [.log .success, .poolEnd, .exit 0] ∨
      ∃ e ev, Aborted e ev ∧ db.Rejects e ∧ run db = ev ++ [.error e, .poolEnd, .exit 0] := by
  have h := analyzeBody_steps db
  unfold Steps at h
  unfold run analyzeDatabase tryFinally tryCatch
  rcases hx : analyzeBody db 0 with ⟨_ | u, ev, m⟩
  · rw [hx] at h
    right
    refine ⟨_, ev, h.1, h.2, ?_⟩
    simp [emit, bind, Run.bind]
  · rw [hx] at h
    left
    subst h
    simp [emit, bind, Run.bind]

/-! ## Exit, cleanup and failure (C1 to C5) -/

theorem failTail_events {e : Err} {tail : List Event} (h : FailTail e tail) :
    ∀ x ∈ tail, x.isRoutine = true ∨ x.isFailure = true := by
  rcases h with rfl | ⟨text, params, rfl⟩
  · intro x hx
    simp only [List.mem_singleton] at hx
    subst hx
    exact Or.inr rfl
  · intro x hx
    simp only [List.mem_cons, List.mem_singleton, List.not_mem_nil, or_false] at hx
    rcases hx with rfl | rfl | rfl
    · exact Or.inl rfl
    · exact Or.inr rfl
    · exact Or.inl rfl

theorem aborted_events {e : Err} {ev : List Event} (h : Aborted e ev) :
    ∀ x ∈ ev, x.isRoutine = true ∨ x.isFailure = true := by
  obtain ⟨pre, tail, hpre, ht, rfl⟩ := h
  intro x hx
  rcases List.mem_append.mp hx with h1 | h1
  · exact Or.inl (hpre.1 x h1)
  · exact failTail_events ht x h1

theorem failTail_balanced {e : Err} {tail : List Event} (h : FailTail e tail) :
    tail.count .released = tail.count .connected := by
  rcases h with rfl | ⟨text, params, rfl⟩ <;> simp [List.count_cons]

theorem aborted_balanced {e : Err} {ev : List Event} (h : Aborted e ev) :
    ev.count .released = ev.count .connected := by
  obtain ⟨pre, tail, hpre, ht, rfl⟩ := h
  simp [List.count_append, hpre.2, failTail_balanced ht]

theorem aborted_failure {e : Err} {ev : List Event} (h : Aborted e ev) :
    ∃ x ∈ ev, x.isFailure = true := by
  obtain ⟨pre, tail, _, ht, rfl⟩ := h
  rcases ht with rfl | ⟨text, params, rfl⟩
  · exact ⟨.connectFailed e, by simp, rfl⟩
  · exact ⟨.executeFailed text params e, by simp, rfl⟩

theorem exitCode_append_exit (pre : List Event) (code : Nat) (rest : List Event)
    (h : ∀ x ∈ pre, ∀ c, x ≠ .exit c) : exitCode (pre ++ .exit code :: rest) = some code := by
  induction pre with
  | nil => rfl
  | cons x pre ih =>
    have hx := h x (by simp)
    have ih' := ih fun y hy => h y (by simp [hy])
    cases x <;> first | exact ih' | exact absurd rfl (hx _)

/-- The end of every run: all events but the last two are routine or record a
failure or are the diagnostic; the last two are `pool.end()` and `process.exit(0)`. -/
theorem run_end (db : Db) :
    ∃ pre, run db = pre ++ [.poolEnd, .exit 0] ∧
      (∀ x ∈ pre, x ≠ .poolEnd ∧ ∀ c, x ≠ .exit c) ∧
      pre.count .released = pre.count .connected := by
  rcases run_cases db with h | ⟨e, ev, hab, _, h⟩
  · refine ⟨expectedBody db ++ [.log .success], by simp [h], ?_, ?_⟩
    · intro x hx
      rcases List.mem_append.mp hx with h1 | h1
      · have := (calm_expectedBody db).1 x h1
        constructor
        · rintro rfl; simp [Event.isRoutine] at this
        · rintro c rfl; simp [Event.isRoutine] at this
      · simp only [List.mem_singleton] at h1
        subst h1
        simp
    · simp [List.count_append, (calm_expectedBody db).2]
  · refine ⟨ev ++ [.error e], by simp [h], ?_, ?_⟩
    · intro x hx
      rcases List.mem_append.mp hx with h1 | h1
      · have := aborted_events hab x h1
        constructor
        · rintro rfl; simp [Event.isRoutine, Event.isFailure] at this
        · rintro c rfl; simp [Event.isRoutine, Event.isFailure] at this
      · simp only [List.mem_singleton] at h1
        subst h1
        simp
    · simp [List.count_append, aborted_balanced hab]

/-- C1, as the code has it: for every run of `analyzeDatabase`, whether every
query succeeded or some query failed, the process exits with code 0. -/
theorem exit_code_always_zero (db : Db) : exitCode (run db) = some 0 := by
  obtain ⟨pre, h, hpre, _⟩ := run_end db
  rw [h]
  have : pre ++ [Event.poolEnd, Event.exit 0] = (pre ++ [.poolEnd]) ++ .exit 0 :: [] := by simp
  rw [this]
  apply exitCode_append_exit
  intro x hx c
  rcases List.mem_append.mp hx with h1 | h1
  · exact (hpre x h1).2 c
  · simp only [List.mem_singleton] at h1
    subst h1
    simp

/-- C1 fails as stated: against a database that cannot be reached the first
query fails, and the exit code is 0, not a non-zero code. -/
theorem exit_code_zero_on_failure :
    (∃ x ∈ run unreachableDb, x.isFailure = true) ∧
      exitCode (run unreachableDb) = some 0 ∧
      ¬ ∃ code, exitCode (run unreachableDb) = some code ∧ code ≠ 0 := by
  decide

/-- C2: in every run, whether all queries succeed or one fails, `pool.end()` is
called exactly once, directly before `process.exit`, which ends the run, so that
nothing, and no query in particular, comes after it. -/
theorem pool_end_once_before_exit (db : Db) :
    (run db).count .poolEnd = 1 ∧
      ∃ pre, run db = pre ++ [.poolEnd, .exit 0] ∧ (∀ x ∈ pre, x ≠ .poolEnd ∧ ∀ c, x ≠ .exit c) := by
  obtain ⟨pre, h, hpre, _⟩ := run_end db
  refine ⟨?_, pre, h, hpre⟩
  rw [h, List.count_append]
  have : pre.count .poolEnd = 0 := List.count_eq_zero.mpr fun hm => (hpre _ hm).1 rfl
  simp [this, List.count_cons]

/-- C3: a call of `query` whose `pool.connect()` succeeds takes one client and
releases it exactly once, whether the statement returns rows or fails; a call
whose `pool.connect()` fails releases nothing; and in every run the releases
equal the clients handed out. -/
theorem release_once_per_acquire (db : Db) :
    (∀ text params n, db.connect n = none →
        (query db text params n).2.1.count .connected = 1 ∧
          (query db text params n).2.1.count .released = 1) ∧
      (∀ text params n, db.connect n ≠ none →
        (query db text params n).2.1.count .connected = 0 ∧
          (query db text params n).2.1.count .released = 0) ∧
      (run db).count .released = (run db).count .connected := by
  refine ⟨?_, ?_, ?_⟩
  · intro text params n h
    rw [query_eq, h]
    cases db.execute n text params <;> simp [queryEvents, List.count_cons]
  · intro text params n h
    rw [query_eq]
    cases h' : db.connect n with
    | none => exact absurd h' h
    | some e => simp [List.count_cons]
  · obtain ⟨pre, h, _, hb⟩ := run_end db
    rw [h]
    simp [List.count_append, hb, List.count_cons]

/-- C4: when some query of a run fails, the run is a stretch of routine events
(no success message among them), then the failing call, then one diagnostic with
the error of that call, then `pool.end()` and `process.exit`: no query follows the
failing one and the success message is not printed. -/
theorem failure_aborts_run (db : Db) (h : ∃ x ∈ run db, x.isFailure = true) :
    ∃ pre tail e, run db = pre ++ tail ++ [.error e, .poolEnd, .exit 0] ∧
      (∀ x ∈ pre, x.isRoutine = true) ∧ FailTail e tail ∧ db.Rejects e ∧
      .log .success ∉ run db ∧ (run db).count (.error e) = 1 ∧
      ∀ e', .error e' ∈ run db → e' = e := by
  rcases run_cases db with hr | ⟨e, ev, hab, hrej, hr⟩
  · exfalso
    obtain ⟨x, hx, hf⟩ := h
    rw [hr] at hx
    rcases List.mem_append.mp hx with h1 | h1
    · have := (calm_expectedBody db).1 x h1
      cases x <;> simp [Event.isRoutine, Event.isFailure] at this hf
    · simp only [List.mem_cons, List.mem_singleton, List.not_mem_nil, or_false] at h1
      rcases h1 with rfl | rfl | rfl <;> simp [Event.isFailure] at hf
  · have hev := aborted_events hab
    obtain ⟨pre, tail, hpre, ht, rfl⟩ := hab
    have hno : ∀ e', Event.error e' ∉ pre ++ tail := by
      intro e' hm
      have := hev _ hm
      simp [Event.isRoutine, Event.isFailure] at this
    refine ⟨pre, tail, e, hr, hpre.1, ht, hrej, ?_, ?_, ?_⟩
    · rw [hr]
      intro hm
      rcases List.mem_append.mp hm with h1 | h1
      · have := hev _ h1
        simp [Event.isRoutine, Event.isFailure] at this
      · simp at h1
    · rw [hr, List.count_append, List.count_eq_zero.mpr (hno e)]
      simp [List.count_cons]
    · intro e' hm
      rw [hr] at hm
      rcases List.mem_append.mp hm with h1 | h1
      · exact absurd h1 (hno e')
      · simpa using h1

/-- C4 at the sample database whose index statement is denied. -/
theorem failure_aborts_run_witness :
    (∃ x ∈ run deniedDb, x.isFailure = true) ∧
      ∃ pre tail e, run deniedDb = pre ++ tail ++ [.error e, .poolEnd, .exit 0] ∧
        (∀ x ∈ pre, x.isRoutine = true) ∧ FailTail e tail ∧ deniedDb.Rejects e ∧
        .log .success ∉ run deniedDb ∧ (run deniedDb).count (.error e) = 1 ∧
        ∀ e', .error e' ∈ run deniedDb → e' = e :=
  ⟨by decide, failure_aborts_run deniedDb (by decide)⟩

/-- C5: when the table list is empty and the statistics statement succeeds, the
run does not fail: it issues exactly two queries, the table list and the
statistics, renders no table section, renders the statistics row and prints the
success message. -/
theorem empty_schema_report (db : Db) (dbStats : List StatsRow) (h0 : db.connect 0 = none)
    (h1 : db.execute 0 .tables [] = .ok []) (h2 : db.connect 1 = none)
    (h3 : db.execute 1 .stats [] = .ok dbStats) :
    run db =
      [.log .analysing, .log .tablesTitle, .connected, .executed .tables [], .released,
        .log (.tableList []), .log .blank, .log .statsTitle, .connected, .executed .stats [],
        .released, .table (.stats dbStats), .log .success, .poolEnd, .exit 0] := by
  have hb : analyzeBody db 0 =
      (.ok (), [.log .analysing, .log .tablesTitle, .connected, .executed .tables [], .released,
        .log (.tableList []), .log .blank, .log .statsTitle, .connected, .executed .stats [],
        .released, .table (.stats dbStats), .log .success], 2) := by
    simp [analyzeBody, bind, Run.bind, emit, query_eq, h0, h1, h2, h3, forEachTable, pure,
      Run.pure, queryEvents]
  simp [run, analyzeDatabase, tryFinally, tryCatch, hb, bind, Run.bind, emit]

/-- C5 at the empty catalog. -/
theorem empty_schema_report_witness :
    (catalogDb emptyCatalog).connect 0 = none ∧
      (catalogDb emptyCatalog).execute 0 .tables [] = .ok [] ∧
      (catalogDb emptyCatalog).connect 1 = none ∧
      (catalogDb emptyCatalog).execute 1 .stats [] = .ok [⟨0, 0, 0⟩] ∧
      run (catalogDb emptyCatalog) =
        [.log .analysing, .log .tablesTitle, .connected, .executed .tables [], .released,
          .log (.tableList []), .log .blank, .log .statsTitle, .connected, .executed .stats [],
          .released, .table (.stats [⟨0, 0, 0⟩]), .log .success, .poolEnd, .exit 0] :=
  ⟨rfl, rfl, rfl, rfl, empty_schema_report _ _ rfl rfl rfl rfl⟩

/-! ## The report of a run without failure (C6, C7, C9) -/

theorem run_of_no_failure (db : Db) (h : ∀ x ∈ run db, x.isFailure = false) :
    run db = expectedBody db ++ [.log .success, .poolEnd, .exit 0] := by
  rcases run_cases db with hr | ⟨e, ev, hab, _, hr⟩
  · exact hr
  · exfalso
    obtain ⟨x, hx, hf⟩ := aborted_failure hab
    have := h x (by rw [hr]; exact List.mem_append_left _ hx)
    rw [hf] at this
    exact absurd this (by decide)

theorem connect_zero_of_no_failure (db : Db) (h : ∀ x ∈ run db, x.isFailure = false) :
    db.connect 0 = none := by
  cases hc : db.connect 0 with
  | none => rfl
  | some e =>
    exfalso
    have hb : analyzeBody db 0 =
        (.error e, [.log .analysing, .log .tablesTitle, .connectFailed e], 1) := by
      simp [analyzeBody, bind, Run.bind, emit, query_eq, hc]
    have hm : Event.connectFailed e ∈ run db := by
      simp [run, analyzeDatabase, tryFinally, tryCatch, hb, bind, Run.bind, emit]
    exact absurd (h _ hm) (by simp [Event.isFailure])

theorem console_indexPart (indexes : List IndexRow) :
    (indexPart indexes).filter Event.isConsole = indexPart indexes := by
  unfold indexPart
  split <;> simp [Event.isConsole]

theorem console_foreignKeyPart (foreignKeys : List ForeignKeyRow) :
    (foreignKeyPart foreignKeys).filter Event.isConsole = foreignKeyPart foreignKeys := by
  unfold foreignKeyPart
  split <;> simp [Event.isConsole]

theorem console_expectedSection (db : Db) (n : Nat) (table : String) :
    (expectedSection db n table).filter Event.isConsole =
      sectionConsole table (rowsAt db n .columns [table]) (rowsAt db (n + 1) .indexes [table])
        (rowsAt db (n + 2) .foreignKeys [table]) := by
  simp [expectedSection, sectionConsole, queryEvents, List.filter_append, console_indexPart,
    console_foreignKeyPart, Event.isConsole]

theorem console_expectedSections (db : Db) (tableNames : List String) :
    ∀ n, (expectedSections db n tableNames).filter Event.isConsole =
      sectionsConsole db n tableNames := by
  induction tableNames with
  | nil => intro n; rfl
  | cons table rest ih =>
    intro n
    simp [expectedSections, sectionsConsole, List.filter_append, console_expectedSection, ih]

/-- C6: every table section that completes, in whatever run, shows on the console
the section title, the columns, the index part, the foreign-key part and the
separator, built from the rows of its own three statements; in a run without
failure the console is the list head, these sections in order and the
statistics; the index part is there exactly when the index statement returned a
row, the foreign-key part exactly when the foreign-key statement returned a row,
and a section without its optional parts is the same whatever those parts are. -/
theorem optional_sections (db : Db) :
    (∀ table n, (∃ u, (tableSection db table n).1 = .ok u) →
        (tableSection db table n).2.1.filter Event.isConsole =
          sectionConsole table (rowsAt db n .columns [table])
            (rowsAt db (n + 1) .indexes [table]) (rowsAt db (n + 2) .foreignKeys [table])) ∧
      ((∀ x ∈ run db, x.isFailure = false) →
        (run db).filter Event.isConsole =
          [.log .analysing, .log .tablesTitle, .log (.tableList (tableNamesOf db)), .log .blank]
            ++ sectionsConsole db 1 (tableNamesOf db)
            ++ [.log .statsTitle,
              .table (.stats (rowsAt db (3 * (tableNamesOf db).length + 1) .stats [])),
              .log .success]) ∧
      ∀ table columns indexes foreignKeys,
        (.log .indexesTitle ∈ sectionConsole table columns indexes foreignKeys ↔
            0 < indexes.length) ∧
          (.table (.indexes indexes) ∈ sectionConsole table columns indexes foreignKeys ↔
            0 < indexes.length) ∧
          (.log .foreignKeysTitle ∈ sectionConsole table columns indexes foreignKeys ↔
            0 < foreignKeys.length) ∧
          (.table (.foreignKeys foreignKeys) ∈
              sectionConsole table columns indexes foreignKeys ↔
            0 < foreignKeys.length) ∧
          (sectionConsole table columns indexes foreignKeys).filter
              (fun x => !x.isOptional) =
            [.log (.sectionTitle table), .log .columnsTitle, .table (.columns columns),
              .log .separator] := by
  refine ⟨?_, ?_, ?_⟩
  · rintro table n ⟨u, hu⟩
    have hs := tableSection_steps db table n
    unfold Steps at hs
    rcases hx : tableSection db table n with ⟨_ | v, ev, m⟩
    · rw [hx] at hu; cases hu
    · rw [hx] at hs
      rw [hs.1]
      exact console_expectedSection db n table
  · intro h
    rw [run_of_no_failure db h]
    simp [expectedBody, queryEvents, List.filter_append, console_expectedSections,
      Event.isConsole]
  · intro table columns indexes foreignKeys
    unfold sectionConsole indexPart foreignKeyPart
    by_cases hi : 0 < indexes.length <;> by_cases hf : 0 < foreignKeys.length <;>
      simp [hi, hf, Event.isOptional]

/-- C6 at the sample catalog: the run has no failure and its console is the list
head, the sections of `orders` and `users` and the statistics. -/
theorem optional_sections_witness :
    (∀ x ∈ run (catalogDb sampleCatalog), x.isFailure = false) ∧
      (run (catalogDb sampleCatalog)).filter Event.isConsole =
        [.log .analysing, .log .tablesTitle,
            .log (.tableList (tableNamesOf (catalogDb sampleCatalog))), .log .blank]
          ++ sectionsConsole (catalogDb sampleCatalog) 1 (tableNamesOf (catalogDb sampleCatalog))
          ++ [.log .statsTitle,
            .table (.stats (rowsAt (catalogDb sampleCatalog)
              (3 * (tableNamesOf (catalogDb sampleCatalog)).length + 1) .stats [])),
            .log .success] :=
  ⟨by decide, (optional_sections (catalogDb sampleCatalog)).2.1 (by decide)⟩

theorem pool_indexPart (indexes : List IndexRow) :
    (indexPart indexes).filter Event.isPool = [] := by
  unfold indexPart
  split <;> simp [Event.isPool]

theorem pool_foreignKeyPart (foreignKeys : List ForeignKeyRow) :
    (foreignKeyPart foreignKeys).filter Event.isPool = [] := by
  unfold foreignKeyPart
  split <;> simp [Event.isPool]

theorem pool_expectedSections (db : Db) (tableNames : List String) :
    ∀ n, (expectedSections db n tableNames).filter Event.isPool =
      (tableNames.flatMap fun table =>
        [(Sql.columns, [table]), (Sql.indexes, [table]), (Sql.foreignKeys, [table])]).flatMap
        fun q => [.connected, .executed q.1 q.2, .released] := by
  induction tableNames with
  | nil => intro n; rfl
  | cons table rest ih =>
    intro n
    simp [expectedSections, expectedSection, queryEvents, List.filter_append, pool_indexPart,
      pool_foreignKeyPart, Event.isPool, ih]

/-- C9: in a run without failure whose table list returns `tables`, the pool
sees exactly this: for the table list, then for the columns, the indexes and the
foreign keys of each table in order, with the table name as only parameter, then
for the statistics, a client is taken, the statement is run and the client is
released before the next is taken; these are `3 n + 2` statements and every
parameter is a name of the table list. -/
theorem query_sequence (db : Db) (tables : List TableRow)
    (h : ∀ x ∈ run db, x.isFailure = false) (ht : db.execute 0 .tables [] = .ok tables) :
    (run db).filter Event.isPool =
        (expectedQueries (tables.map fun t => t.table_name)).flatMap
          (fun q => [.connected, .executed q.1 q.2, .released]) ∧
      (expectedQueries (tables.map fun t => t.table_name)).length = 3 * tables.length + 2 ∧
      ∀ q ∈ expectedQueries (tables.map fun t => t.table_name),
        ∀ p ∈ q.2, p ∈ tables.map fun t => t.table_name := by
  have hn : tableNamesOf db = tables.map fun t => t.table_name := by
    simp [tableNamesOf, rowsAt_eq (connect_zero_of_no_failure db h) ht]
  refine ⟨?_, ?_, ?_⟩
  · rw [run_of_no_failure db h]
    simp [expectedBody, expectedQueries, queryEvents, List.filter_append,
      pool_expectedSections, Event.isPool, hn]
  · have hl : ∀ l : List String, (l.flatMap fun table =>
        [(Sql.columns, [table]), (Sql.indexes, [table]), (Sql.foreignKeys, [table])]).length =
          3 * l.length := by
      intro l
      induction l with
      | nil => rfl
      | cons a l ih => simp only [List.flatMap_cons, List.length_append, ih, List.length_cons,
          List.length_nil]; omega
    simp only [expectedQueries, List.length_append, hl, List.length_map, List.length_cons,
      List.length_nil]
    omega
  · intro q hq p hp
    simp only [expectedQueries, List.mem_append, List.mem_flatMap, List.mem_cons,
      List.mem_singleton, List.not_mem_nil, or_false] at hq
    rcases hq with (rfl | ⟨table, hmem, rfl | rfl | rfl⟩) | rfl
    · simp at hp
    · simp only [List.mem_singleton] at hp; subst hp; exact hmem
    · simp only [List.mem_singleton] at hp; subst hp; exact hmem
    · simp only [List.mem_singleton] at hp; subst hp; exact hmem
    · simp at hp

/-- C9 at the sample catalog. -/
theorem query_sequence_witness :
    (∀ x ∈ run (catalogDb sampleCatalog), x.isFailure = false) ∧
      (catalogDb sampleCatalog).execute 0 .tables [] = .ok [⟨"orders"⟩, ⟨"users"⟩] ∧
      (run (catalogDb sampleCatalog)).filter Event.isPool =
        (expectedQueries ["orders", "users"]).flatMap
          (fun q => [.connected, .executed q.1 q.2, .released]) :=
  ⟨by decide, rfl,
    (query_sequence (catalogDb sampleCatalog) [⟨"orders"⟩, ⟨"users"⟩] (by decide) rfl).1⟩

/-! ## Runs against a catalog (C7, C8, C10) -/

theorem nameLe_iff (a b : String) : nameLe a b ↔ a ≤ b :=
  String.le_iff_toList_le.symm

theorem nameLe_total : IsTotal String nameLe :=
  ⟨fun a b => by simpa only [nameLe_iff] using le_total a b⟩

theorem nameLe_trans : IsTrans String nameLe :=
  ⟨fun a b c => by simpa only [nameLe_iff] using le_trans⟩

theorem wellFormed_execute (cat : Catalog) (text : Sql) (params : List String)
    (h : wellFormed text params = true) : ∃ rows, cat.execute text params = .ok rows := by
  cases text <;> rcases params with _ | ⟨p, _ | ⟨q, rest⟩⟩ <;>
    simp [wellFormed] at h <;> exact ⟨_, rfl⟩

theorem catalogDb_rejects (cat : Catalog) (e : Err) : ¬ (catalogDb cat).Rejects e := by
  rintro ⟨k, h | ⟨text, params, hw, h⟩⟩
  · simp [catalogDb] at h
  · obtain ⟨rows, hr⟩ := wellFormed_execute cat text params hw
    simp [catalogDb, hr] at h

theorem run_catalogDb (cat : Catalog) :
    run (catalogDb cat) = expectedBody (catalogDb cat) ++ [.log .success, .poolEnd, .exit 0] := by
  rcases run_cases (catalogDb cat) with hr | ⟨e, ev, _, hrej, _⟩
  · exact hr
  · exact absurd hrej (catalogDb_rejects cat e)

theorem tableNamesOf_catalogDb (cat : Catalog) :
    tableNamesOf (catalogDb cat) = cat.selectTables.map fun t => t.table_name := rfl

theorem titles_indexPart (indexes : List IndexRow) :
    (indexPart indexes).filterMap Event.sectionTable = [] := by
  unfold indexPart
  split <;> simp [Event.sectionTable]

theorem titles_foreignKeyPart (foreignKeys : List ForeignKeyRow) :
    (foreignKeyPart foreignKeys).filterMap Event.sectionTable = [] := by
  unfold foreignKeyPart
  split <;> simp [Event.sectionTable]

theorem titles_expectedSections (db : Db) (tableNames : List String) :
    ∀ n, (expectedSections db n tableNames).filterMap Event.sectionTable = tableNames := by
  induction tableNames with
  | nil => intro n; rfl
  | cons table rest ih =>
    intro n
    simp [expectedSections, expectedSection, queryEvents, List.filterMap_append,
      titles_indexPart, titles_foreignKeyPart, Event.sectionTable, ih]

theorem tables_sorted (cat : Catalog) :
    (cat.selectTables.map fun t => t.table_name).Sorted (· ≤ ·) := by
  haveI := nameLe_total
  haveI := nameLe_trans
  unfold Catalog.selectTables
  simp only [List.map_map, Function.comp_def, List.map_id']
  exact (List.sorted_insertionSort nameLe _).imp fun h => (nameLe_iff _ _).mp h

theorem tables_perm (cat : Catalog) :
    (cat.selectTables.map fun t => t.table_name).Perm
      ((cat.tables.filter fun t => t.table_schema = "public").map fun t => t.table_name) := by
  unfold Catalog.selectTables
  simp only [List.map_map, Function.comp_def, List.map_id']
  exact List.perm_insertionSort nameLe _

/-- C7: for every catalog the names of the table list are the public tables in
ascending order of name, the report lists them in that order, and the table
sections of the run are those of the listed names, one each, in the same order;
the list is the same for every catalog with the same public tables, however the
catalog stores them, so that two runs against an unchanged catalog agree. -/
theorem tables_in_alphabetical_order (cat : Catalog) :
    (cat.selectTables.map fun t => t.table_name).Sorted (· ≤ ·) ∧
      (cat.selectTables.map fun t => t.table_name).Perm
        ((cat.tables.filter fun t => t.table_schema = "public").map fun t => t.table_name) ∧
      .log (.tableList (cat.selectTables.map fun t => t.table_name)) ∈ run (catalogDb cat) ∧
      (run (catalogDb cat)).filterMap Event.sectionTable =
        (cat.selectTables.map fun t => t.table_name) ∧
      ∀ other : Catalog,
        ((other.tables.filter fun t => t.table_schema = "public").map
            fun t => t.table_name).Perm
          ((cat.tables.filter fun t => t.table_schema = "public").map fun t => t.table_name) →
        (other.selectTables.map fun t => t.table_name) =
          cat.selectTables.map fun t => t.table_name := by
  refine ⟨tables_sorted cat, tables_perm cat, ?_, ?_, ?_⟩
  · rw [run_catalogDb, ← tableNamesOf_catalogDb cat]
    simp [expectedBody]
  · rw [run_catalogDb]
    simp [expectedBody, queryEvents, List.filterMap_append, titles_expectedSections,
      Event.sectionTable, tableNamesOf_catalogDb]
  · intro other hp
    exact List.eq_of_perm_of_sorted ((tables_perm other).trans (hp.trans (tables_perm cat).symm))
      (tables_sorted other) (tables_sorted cat)

theorem mem_selectForeignKeys (cat : Catalog) (table : String) (row : ForeignKeyRow) :
    row ∈ cat.selectForeignKeys table ↔
      ∃ tc ∈ cat.table_constraints, ∃ kcu ∈ cat.key_column_usage,
        ∃ ccu ∈ cat.constraint_column_usage,
          tc.constraint_name = kcu.constraint_name ∧ ccu.constraint_name = tc.constraint_name ∧
            tc.table_name = table ∧ tc.constraint_type = "FOREIGN KEY" ∧
            row = ⟨tc.constraint_name, kcu.column_name, ccu.table_name, ccu.column_name⟩ := by
  simp only [Catalog.selectForeignKeys, innerJoin, List.mem_map, List.mem_filter,
    List.mem_flatMap, Prod.exists, Prod.mk.injEq, decide_eq_true_eq, Bool.decide_and,
    Bool.and_eq_true]
  constructor
  · rintro ⟨tc, kcu, ccu, ⟨⟨t1, k1, ⟨t2, htc, k2, ⟨hk, h1⟩, rfl, rfl⟩, u1, ⟨hu, h2⟩,
      ⟨rfl, rfl⟩, rfl⟩, h3, h4⟩, rfl⟩
    exact ⟨_, htc, _, hk, _, hu, h1, h2, h3, h4, rfl⟩
  · rintro ⟨tc, htc, kcu, hk, ccu, hu, h1, h2, h3, h4, rfl⟩
    exact ⟨tc, kcu, ccu, ⟨⟨tc, kcu, ⟨tc, htc, kcu, ⟨hk, h1⟩, rfl, rfl⟩, ccu, ⟨hu, h2⟩,
      ⟨rfl, rfl⟩, rfl⟩, h3, h4⟩, rfl⟩

theorem expectedSections_append (db : Db) (l1 l2 : List String) :
    ∀ n, expectedSections db n (l1 ++ l2) =
      expectedSections db n l1 ++ expectedSections db (n + 3 * l1.length) l2 := by
  induction l1 with
  | nil => intro n; simp [expectedSections]
  | cons table rest ih =>
    intro n
    have : n + 3 + 3 * rest.length = n + 3 * (rest.length + 1) := by omega
    simp [expectedSections, ih, this]

/-- C8: when the catalog records a foreign key `c` of table `T` on its column `a`
that references column `b` of table `R`, and `T` is a table of the report, the
section of `T` renders the foreign-key rows of `T`, and the row
`(c, a, R, b)` is among them (`s` is the schema the view records for `T`). -/
theorem foreign_key_row_reported (cat : Catalog) (c s T a R b : String)
    (hT : ⟨"public", T⟩ ∈ cat.tables)
    (htc : ⟨c, s, T, "FOREIGN KEY"⟩ ∈ cat.table_constraints)
    (hkcu : ⟨c, T, a⟩ ∈ cat.key_column_usage)
    (hccu : ⟨c, R, b⟩ ∈ cat.constraint_column_usage) :
    ∃ pre mid post, run (catalogDb cat) =
        pre ++ [.log (.sectionTitle T)] ++ mid
          ++ [.log .foreignKeysTitle, .table (.foreignKeys (cat.selectForeignKeys T)),
            .log .separator] ++ post ∧
      (∀ x ∈ mid, x.sectionTable = none) ∧
      ⟨c, a, R, b⟩ ∈ cat.selectForeignKeys T := by
  have hrow : (⟨c, a, R, b⟩ : ForeignKeyRow) ∈ cat.selectForeignKeys T :=
    (mem_selectForeignKeys cat T _).mpr ⟨_, htc, _, hkcu, _, hccu, rfl, rfl, rfl, rfl, rfl⟩
  have hlen : 0 < (cat.selectForeignKeys T).length := List.length_pos_of_mem hrow
  have hmem : T ∈ tableNamesOf (catalogDb cat) := by
    rw [tableNamesOf_catalogDb]
    have hp := (tables_perm cat).mem_iff (a := T)
    rw [hp]
    exact List.mem_map.mpr ⟨_, List.mem_filter.mpr ⟨hT, by simp⟩, rfl⟩
  obtain ⟨l1, l2, hl⟩ := List.append_of_mem hmem
  refine ⟨[.log .analysing, .log .tablesTitle] ++ queryEvents .tables []
      ++ [.log (.tableList (tableNamesOf (catalogDb cat))), .log .blank]
      ++ expectedSections (catalogDb cat) 1 l1,
    queryEvents .columns [T]
      ++ [.log .columnsTitle, .table (.columns (cat.selectColumns T))]
      ++ queryEvents .indexes [T] ++ indexPart (cat.selectIndexes T)
      ++ queryEvents .foreignKeys [T],
    expectedSections (catalogDb cat) (1 + 3 * l1.length + 3) l2 ++ [.log .statsTitle]
      ++ queryEvents .stats []
      ++ [.table (.stats (rowsAt (catalogDb cat)
        (3 * (tableNamesOf (catalogDb cat)).length + 1) .stats [])),
        .log .success, .poolEnd, .exit 0], ?_, ?_, hrow⟩
  · rw [run_catalogDb]
    unfold expectedBody
    rw [hl, expectedSections_append]
    simp [expectedSections, expectedSection, rowsAt, catalogDb, Catalog.execute,
      foreignKeyPart, hlen]
  · intro x hx
    simp only [List.mem_append, queryEvents, List.mem_cons, List.mem_singleton,
      List.not_mem_nil, or_false] at hx
    rcases hx with ((((rfl | rfl | rfl) | (rfl | rfl)) | (rfl | rfl | rfl)) | hx) |
      (rfl | rfl | rfl)
    any_goals rfl
    unfold indexPart at hx
    split at hx
    · simp only [List.mem_cons, List.mem_singleton, List.not_mem_nil, or_false] at hx
      rcases hx with rfl | rfl <;> rfl
    · simp at hx

/-- C8 at the sample catalog: the section of `orders` includes the row
`(orders_user_id_fkey, user_id, users, id)`. -/
theorem foreign_key_row_reported_witness :
    (⟨"public", "orders"⟩ : TablesViewRow) ∈ sampleCatalog.tables ∧
      (⟨"orders_user_id_fkey", "public", "orders", "FOREIGN KEY"⟩ : TableConstraintsRow) ∈
        sampleCatalog.table_constraints ∧
      (⟨"orders_user_id_fkey", "orders", "user_id"⟩ : KeyColumnUsageRow) ∈
        sampleCatalog.key_column_usage ∧
      (⟨"orders_user_id_fkey", "users", "id"⟩ : ConstraintColumnUsageRow) ∈
        sampleCatalog.constraint_column_usage ∧
      ∃ pre mid post, run (catalogDb sampleCatalog) =
          pre ++ [.log (.sectionTitle "orders")] ++ mid
            ++ [.log .foreignKeysTitle,
              .table (.foreignKeys (sampleCatalog.selectForeignKeys "orders")),
              .log .separator] ++ post ∧
        (∀ x ∈ mid, x.sectionTable = none) ∧
        ⟨"orders_user_id_fkey", "user_id", "users", "id"⟩ ∈
          sampleCatalog.selectForeignKeys "orders" :=
  ⟨by decide, by decide, by decide, by decide,
    foreign_key_row_reported sampleCatalog "orders_user_id_fkey" "public" "orders" "user_id"
      "users" "id"
      (by decide) (by decide) (by decide) (by decide)⟩

theorem selectForeignKeys_eq (cat : Catalog) (table : String) :
    cat.selectForeignKeys table =
      cat.table_constraints.flatMap fun tc =>
        if tc.table_name = table ∧ tc.constraint_type = "FOREIGN KEY" then
          (cat.key_column_usage.filter fun kcu =>
            tc.constraint_name = kcu.constraint_name).flatMap fun kcu =>
            (cat.constraint_column_usage.filter fun ccu =>
              ccu.constraint_name = tc.constraint_name).map fun ccu =>
              ⟨tc.constraint_name, kcu.column_name, ccu.table_name, ccu.column_name⟩
        else [] := by
  unfold Catalog.selectForeignKeys innerJoin
  simp only [List.flatMap_assoc, List.filter_flatMap, List.map_flatMap, List.flatMap_map,
    List.filter_map, List.map_map, Function.comp_def]
  refine List.flatMap_congr fun tc _ => ?_
  split
  · rename_i h
    simp [h]
  · rename_i h
    simp [h]

theorem flatMap_ite_eq_filter {α β : Type} (l : List α) (p : α → Prop) [DecidablePred p]
    (g : α → List β) :
    (l.flatMap fun a => if p a then g a else []) = (l.filter fun a => p a).flatMap g := by
  induction l with
  | nil => rfl
  | cons a l ih =>
    by_cases h : p a <;> simp [List.filter_cons, h, ih]

/-- The rows of the foreign-key statement, constraint by constraint, when the
table name belongs to the public schema only. -/
theorem selectForeignKeys_foreignKeysOf (cat : Catalog) (table : String)
    (hT : ∀ tc ∈ cat.table_constraints, tc.table_name = table → tc.table_schema = "public") :
    cat.selectForeignKeys table = (cat.foreignKeysOf table).flatMap cat.foreignKeyRows := by
  rw [selectForeignKeys_eq]
  have hfilter : cat.foreignKeysOf table =
      cat.table_constraints.filter
        fun tc => tc.table_name = table ∧ tc.constraint_type = "FOREIGN KEY" := by
    unfold Catalog.foreignKeysOf Catalog.foreignKeys
    rw [List.filter_filter]
    apply List.filter_congr
    intro tc htc
    by_cases h1 : tc.table_name = table
    · simp [h1, hT tc htc h1]
    · simp [h1]
  rw [hfilter, ← flatMap_ite_eq_filter]
  refine List.flatMap_congr fun tc _ => ?_
  unfold Catalog.foreignKeyRows Catalog.keyColumnsNamed Catalog.usedColumnsNamed
  simp only [eq_comm (a := tc.constraint_name)]

theorem foreignKeyRows_single (cat : Catalog) (tc : TableConstraintsRow)
    (h1 : (cat.keyColumnsNamed tc.constraint_name).length = 1)
    (h2 : (cat.usedColumnsNamed tc.constraint_name).length = 1) :
    ∃ column refTable refColumn,
      cat.foreignKeyRows tc = [⟨tc.constraint_name, column, refTable, refColumn⟩] := by
  obtain ⟨kcu, hk⟩ := List.length_eq_one.mp h1
  obtain ⟨ccu, hu⟩ := List.length_eq_one.mp h2
  exact ⟨kcu.column_name, ccu.table_name, ccu.column_name, by
    simp [Catalog.foreignKeyRows, hk, hu]⟩

theorem foreignKeyRows_names (cat : Catalog) (l : List TableConstraintsRow)
    (hS : ∀ tc ∈ l, (cat.keyColumnsNamed tc.constraint_name).length = 1 ∧
      (cat.usedColumnsNamed tc.constraint_name).length = 1) :
    (l.flatMap cat.foreignKeyRows).map (fun r => r.constraint_name) =
      l.map fun tc => tc.constraint_name := by
  induction l with
  | nil => rfl
  | cons tc rest ih =>
    obtain ⟨column, refTable, refColumn, hrow⟩ :=
      foreignKeyRows_single cat tc (hS tc (by simp)).1 (hS tc (by simp)).2
    have ih2 := ih fun d hd => hS d (by simp [hd])
    simp [hrow, ih2]

/-- C10, as the code has it: when no table of another schema bears the name `T`,
the foreign-key names are unique across all tables, and the name of every foreign
key stands on exactly one row of `key_column_usage` and on exactly one row of
`constraint_column_usage` (the key covers one column and no constraint of any
kind, on any table, shares its name), the rows of the foreign-key statement for
`T` are the foreign keys the views show for `T`: one row for each, made of its
own columns, none of them twice. -/
theorem foreign_keys_exact (cat : Catalog) (T : String)
    (hT : ∀ tc ∈ cat.table_constraints, tc.table_name = T → tc.table_schema = "public")
    (hU : (cat.foreignKeys.map fun tc => tc.constraint_name).Nodup)
    (hS : ∀ tc ∈ cat.foreignKeys, (cat.keyColumnsNamed tc.constraint_name).length = 1 ∧
      (cat.usedColumnsNamed tc.constraint_name).length = 1) :
    (cat.selectForeignKeys T).Perm ((cat.foreignKeysOf T).flatMap cat.foreignKeyRows) ∧
      (∀ tc ∈ cat.foreignKeysOf T, (cat.foreignKeyRows tc).length = 1) ∧
      (cat.selectForeignKeys T).length = (cat.foreignKeysOf T).length ∧
      (cat.selectForeignKeys T).Nodup := by
  have heq := selectForeignKeys_foreignKeysOf cat T hT
  have hS2 : ∀ tc ∈ cat.foreignKeysOf T,
      (cat.keyColumnsNamed tc.constraint_name).length = 1 ∧
        (cat.usedColumnsNamed tc.constraint_name).length = 1 :=
    fun tc htc => hS tc (List.mem_filter.mp htc).1
  have hnames := foreignKeyRows_names cat (cat.foreignKeysOf T) hS2
  refine ⟨heq ▸ List.Perm.refl _, ?_, ?_, ?_⟩
  · intro tc htc
    obtain ⟨column, refTable, refColumn, hrow⟩ :=
      foreignKeyRows_single cat tc (hS2 tc htc).1 (hS2 tc htc).2
    simp [hrow]
  · rw [heq]
    have := congrArg List.length hnames
    simpa using this
  · rw [heq]
    apply List.Nodup.of_map (fun r => r.constraint_name)
    rw [hnames]
    exact hU.sublist ((List.filter_sublist cat.foreignKeys).map _)

/-- C10 at the sample catalog and its table `orders`. -/
theorem foreign_keys_exact_witness :
    (∀ tc ∈ sampleCatalog.table_constraints,
        tc.table_name = "orders" → tc.table_schema = "public") ∧
      (sampleCatalog.foreignKeys.map fun tc => tc.constraint_name).Nodup ∧
      (∀ tc ∈ sampleCatalog.foreignKeys,
        (sampleCatalog.keyColumnsNamed tc.constraint_name).length = 1 ∧
          (sampleCatalog.usedColumnsNamed tc.constraint_name).length = 1) ∧
      (sampleCatalog.selectForeignKeys "orders").Perm
          ((sampleCatalog.foreignKeysOf "orders").flatMap sampleCatalog.foreignKeyRows) ∧
        (∀ tc ∈ sampleCatalog.foreignKeysOf "orders",
          (sampleCatalog.foreignKeyRows tc).length = 1) ∧
        (sampleCatalog.selectForeignKeys "orders").length =
          (sampleCatalog.foreignKeysOf "orders").length ∧
        (sampleCatalog.selectForeignKeys "orders").Nodup :=
  ⟨by decide, by decide, by decide,
    foreign_keys_exact sampleCatalog "orders" (by decide) (by decide) (by decide)⟩

/-- C10 fails as stated: with the primary key of `users` and the foreign key of
`orders` both named `c`, the foreign-key names are unique across all tables and
the one foreign key covers one column of its table, yet the report of `orders`
shows four rows for it, each of them twice, two of them on the key column `id`
of `users`. -/
theorem foreign_keys_clash :
    (clashingCatalog.foreignKeys.map fun tc => tc.constraint_name).Nodup ∧
      (∀ tc ∈ clashingCatalog.foreignKeys, (clashingCatalog.ownKeyColumns tc).length = 1) ∧
      (∀ tc ∈ clashingCatalog.table_constraints,
        tc.table_name = "orders" → tc.table_schema = "public") ∧
      clashingCatalog.foreignKeysOf "orders" = [⟨"c", "public", "orders", "FOREIGN KEY"⟩] ∧
      (clashingCatalog.selectForeignKeys "orders").Perm
        [⟨"c", "user_id", "users", "id"⟩, ⟨"c", "user_id", "users", "id"⟩,
          ⟨"c", "id", "users", "id"⟩, ⟨"c", "id", "users", "id"⟩] ∧
      (clashingCatalog.selectForeignKeys "orders").length ≠
        (clashingCatalog.foreignKeysOf "orders").length ∧
      ¬ (clashingCatalog.selectForeignKeys "orders").Nodup ∧
      (∃ rows, Event.table (.foreignKeys rows) ∈ run (catalogDb clashingCatalog) ∧
        rows.Perm (clashingCatalog.selectForeignKeys "orders")) := by
  refine ⟨by decide, by decide, by decide, by decide, ?_, by decide, by decide,
    ⟨clashingCatalog.selectForeignKeys "orders", by decide, List.Perm.refl _⟩⟩
  have h : clashingCatalog.selectForeignKeys "orders" =
      [⟨"c", "id", "users", "id"⟩, ⟨"c", "id", "users", "id"⟩,
        ⟨"c", "user_id", "users", "id"⟩, ⟨"c", "user_id", "users", "id"⟩] := by decide
  rw [h]
  decide

end DbStructure
